import Mathlib

/-!
Verification of the PTE Write-From-Dictation practice room core:
the word-level accuracy scorer (`calculateAccuracy` in `src/lib/utils.ts`)
and the room session state machine (`src/lib/firestore.ts`,
`src/lib/phrase-management.ts`), shallowly embedded in Lean.

Strings are modelled through their character lists; timestamps are
natural-number milliseconds; the Firestore document for a room is an
`Option Room` (`none` = document absent); `auth.currentUser` is an
`Option String` argument; the success of backend writes is an explicit
`backendOk : Bool` argument (an `updateDoc`/`setDoc`/`deleteDoc` call
fails exactly when it is `false`).  JavaScript `try/catch` blocks that
rethrow are the identity on `Except`; blocks that only log are modelled
by `swallowErrors`, mapping inner errors to a successful result.
-/

namespace WFD

/-! ## Accuracy scorer (`calculateAccuracy`, src/lib/utils.ts) -/

/-- JavaScript whitespace test used by `trim` and the `\s` class. -/
def isWs (c : Char) : Bool := c.isWhitespace

/-- Model of `String.prototype.trim`: strip leading and trailing whitespace. -/
def trimChars (cs : List Char) : List Char :=
  ((cs.dropWhile isWs).reverse.dropWhile isWs).reverse

/-- Model of `replace(/\s+/g, " ")`: collapse every whitespace run to one space. -/
def collapseWs : List Char → List Char
  | [] => []
  | [c] => if isWs c then [' '] else [c]
  | c :: d :: cs =>
    if isWs c && isWs d then collapseWs (d :: cs)
    else (if isWs c then ' ' else c) :: collapseWs (d :: cs)

/-- Model of `text.trim().toLowerCase().replace(/\s+/g, " ")`, the
source's `normalizeText`. -/
def normalizeText (cs : List Char) : List Char :=
  collapseWs ((trimChars cs).map Char.toLower)

/-- Model of `split(" ")` on a character list. -/
def splitOnSpace : List Char → List (List Char)
  | [] => [[]]
  | c :: cs =>
    match splitOnSpace cs with
    | [] => [[]]
    | w :: ws => if c = ' ' then [] :: w :: ws else (c :: w) :: ws

/-- Model of `normalize(s).split(" ").filter(word => word.length > 0)`:
the normalized word tokens of a string. -/
def tokenize (s : String) : List String :=
  ((splitOnSpace (normalizeText s.data)).map String.mk).filter
    (fun w => w.length > 0)

/-- One step of building a JS `Map<string, number>` of word counts:
increment the entry for `w`, inserting it at the end if absent. -/
def bump (m : List (String × Nat)) (w : String) : List (String × Nat) :=
  if m.any (fun p => p.fst == w) then
    m.map (fun p => if p.fst == w then (p.fst, p.snd + 1) else p)
  else m ++ [(w, 1)]

/-- The word-count map of a token list (`forEach` over the words). -/
def countWords (ws : List String) : List (String × Nat) :=
  ws.foldl bump []

/-- Model of `map.get(word) || 0`. -/
def getCount (m : List (String × Nat)) (w : String) : Nat :=
  match m.find? (fun p => p.fst == w) with
  | some p => p.snd
  | none => 0

/-- Model of `map.has(word)`. -/
def hasKey (m : List (String × Nat)) (w : String) : Bool :=
  m.any (fun p => p.fst == w)

/-- Model of `Math.round(x * 100) / 100`: round to two decimal places. -/
def round2 (q : Rat) : Rat := (round (q * 100) : Int) / 100

/-- Model of `totalTargetWords > 0 ? (correctWords / totalTargetWords)
* 100 : 0`. -/
def accuracyPercent (correctWords totalTargetWords : Nat) : Rat :=
  if totalTargetWords > 0 then
    ((correctWords : Rat) / (totalTargetWords : Rat)) * 100
  else 0

structure AccuracyResult where
  correct : List String
  incorrect : List String
  missing : List String
  extra : List String
  isFullyCorrect : Bool
  accuracy : Rat
deriving DecidableEq, Repr

/-- The scorer `calculateAccuracy(targetPhrase, userInput)`:
multiset word alignment of the normalized token lists. -/
def calculateAccuracy (targetPhrase userInput : String) : AccuracyResult :=
  let targetWords := tokenize targetPhrase
  let inputWords := tokenize userInput
  let targetWordCount := countWords targetWords
  let inputWordCount := countWords inputWords
  let correct := targetWordCount.flatMap
    (fun p => List.replicate (min p.snd (getCount inputWordCount p.fst)) p.fst)
  let missing := targetWordCount.flatMap
    (fun p => List.replicate (p.snd - getCount inputWordCount p.fst) p.fst)
  let extra := inputWordCount.flatMap
    (fun p => List.replicate (p.snd - getCount targetWordCount p.fst) p.fst)
  let incorrect := inputWords.filter (fun w => !(hasKey targetWordCount w))
  { correct := correct
    incorrect := incorrect
    missing := missing
    extra := extra
    isFullyCorrect :=
      missing.isEmpty && incorrect.isEmpty && extra.isEmpty
    accuracy := round2 (accuracyPercent correct.length targetWords.length) }

/-! ## Data model (src/types/index.ts) -/

inductive Status where
  | waiting
  | typing
  | submitted
deriving DecidableEq, Repr

/-- One entry of the (untyped in the source) `submissionHistory` log,
as built in `submitAnswer`. -/
structure SubmissionEntry where
  phrase : String
  answer : String
  accuracy : AccuracyResult
  submittedAt : Nat
  phraseIndex : Option Nat
deriving DecidableEq, Repr

structure ParticipantData where
  nickname : String
  status : Status
  submission : Option String := none
  accuracy : Option AccuracyResult := none
  submittedAt : Option Nat := none
  isTyping : Bool := false
  correctCount : Nat
  totalAttempts : Nat
  averageTime : Option Rat := none
  fastestTime : Option Nat := none
  completionTimes : Option (List Nat) := none
  submissionHistory : Option (List SubmissionEntry) := none
deriving DecidableEq, Repr

/-- The room document.  `participants` is an association list with
unique keys, mirroring the JS object keyed by participant id. -/
structure Room where
  id : String
  hostId : String
  targetPhrase : String
  createdAt : Nat
  isActive : Bool
  participants : List (String × ParticipantData)
  countdownStartedAt : Option Nat := none
  isCountingDown : Bool := false
  roundStartTime : Option Nat := none
  currentPhraseIndex : Option Nat := none
  shouldPlayAudio : Bool := false
  showPhraseToParticipants : Bool := false
  audioUrl : Option String := none
deriving DecidableEq, Repr

abbrev Err := String

/-- A backend write (`setDoc`/`updateDoc`): succeeds iff `backendOk`. -/
def writeRoom (backendOk : Bool) (r : Room) : Except Err Room :=
  if backendOk then .ok r else .error "backend write failed"

/-- Model of `roomData.participants[uid]` (`undefined` when absent). -/
def lookupP (ps : List (String × ParticipantData)) (uid : String) :
    Option ParticipantData :=
  (ps.find? (fun q => q.fst == uid)).map Prod.snd

/-- Model of `{ ...participants, [uid]: p }`: replace the slot for `uid`,
appending it if absent (JS object-spread key semantics). -/
def setParticipant (ps : List (String × ParticipantData)) (uid : String)
    (p : ParticipantData) : List (String × ParticipantData) :=
  if ps.any (fun q => q.fst == uid) then
    ps.map (fun q => if q.fst == uid then (uid, p) else q)
  else ps ++ [(uid, p)]

/-- The fresh participant record written by `createRoom` and `joinRoom`:
`{ nickname, status: 'waiting', isTyping: false, correctCount: 0,
totalAttempts: 0 }`. -/
def freshParticipant (nickname : String) : ParticipantData :=
  { nickname := nickname
    status := .waiting
    isTyping := false
    correctCount := 0
    totalAttempts := 0 }

/-! ## State machine operations (src/lib/firestore.ts) -/

/-- Model of `createRoom(hostNickname)`. -/
def createRoom (connected : Bool) (user : Option String)
    (roomId hostNickname : String) (now : Nat) (backendOk : Bool) :
    Except Err Room :=
  if !connected then .error "Firebase connection failed"
  else
    match user with
    | none => .error "Failed to authenticate user"
    | some uid =>
      writeRoom backendOk
        { id := roomId
          hostId := uid
          targetPhrase := ""
          createdAt := now
          isActive := true
          participants := [(uid, freshParticipant hostNickname)] }

/-- Model of `joinRoom(roomId, nickname)`. -/
def joinRoom (user : Option String) (roomDoc : Option Room)
    (nickname : String) (backendOk : Bool) : Except Err Room :=
  match user with
  | none => .error "Failed to authenticate user"
  | some uid =>
    match roomDoc with
    | none => .error "Room not found"
    | some room =>
      if !room.isActive then .error "Room is not active"
      else
        writeRoom backendOk
          { room with participants :=
              setParticipant room.participants uid (freshParticipant nickname) }

/-- The per-participant reset performed by `setTargetPhrase`: status
fields overwritten, `submission`/`accuracy`/`submittedAt` deleted,
everything else untouched. -/
def resetTransient (p : ParticipantData) : ParticipantData :=
  { p with
    status := .waiting
    isTyping := false
    submission := none
    accuracy := none
    submittedAt := none }

/-- Model of `setTargetPhrase(roomId, phrase, index?, audioUrl?)`
(host only).
The two consecutive `updateDoc` calls (status updates, then field
deletions) are modelled as their combined effect in one write. -/
def setTargetPhrase (user : Option String) (roomDoc : Option Room)
    (phrase : String) (index : Option Nat) (audioUrl : Option String)
    (now : Nat) (backendOk : Bool) : Except Err Room :=
  match user with
  | none => .error "User not authenticated"
  | some uid =>
    match roomDoc with
    | none => .error "Room not found"
    | some room =>
      if room.hostId ≠ uid then .error "Only host can set target phrase"
      else
        let newIndex :=
          match index with
          | some i => some i
          | none => room.currentPhraseIndex
        writeRoom backendOk
          { room with
            targetPhrase := phrase
            isCountingDown := true
            countdownStartedAt := some now
            audioUrl := audioUrl
            currentPhraseIndex := newIndex
            participants :=
              room.participants.map (fun q => (q.fst, resetTransient q.snd)) }

/-- The deferred `setTimeout` write that ends the countdown 3 seconds
after a phrase assignment.  Best effort: a failure is logged and leaves
the visible state unchanged; no caller observes an error. -/
def countdownComplete (roomDoc : Option Room) (now : Nat)
    (backendOk : Bool) : Option Room :=
  match roomDoc with
  | none => none
  | some room =>
    if backendOk then
      some { room with isCountingDown := false, roundStartTime := some now }
    else some room

/-- Model of `reduce((sum, time) => sum + time, 0)`. -/
def sumTimes (l : List Nat) : Nat := l.foldl (· + ·) 0

/-- Model of `Math.min(...l)` for a nonempty list (`0` for the empty list, which
`submitAnswer` never produces). -/
def listMin : List Nat → Nat
  | [] => 0
  | x :: xs => xs.foldl Nat.min x

/-- The participant record written by `submitAnswer`: counters
incremented, submission fields set, one history entry appended, and —
only for a fully correct answer with `roundStartTime` present — the
completion-time statistics recomputed. -/
def submitUpdate (room : Room) (p : ParticipantData)
    (accuracy : AccuracyResult) (answer : String) (now : Nat) :
    ParticipantData :=
  let newCorrectCount :=
    if accuracy.isFullyCorrect then p.correctCount + 1 else p.correctCount
  let newTotalAttempts := p.totalAttempts + 1
  let entry : SubmissionEntry :=
    { phrase := room.targetPhrase
      answer := answer
      accuracy := accuracy
      submittedAt := now
      phraseIndex := room.currentPhraseIndex }
  let base : ParticipantData :=
    { p with
      status := .submitted
      submission := some answer
      accuracy := some accuracy
      submittedAt := some now
      isTyping := false
      correctCount := newCorrectCount
      totalAttempts := newTotalAttempts
      submissionHistory := some (p.submissionHistory.getD [] ++ [entry]) }
  if accuracy.isFullyCorrect then
    (match room.roundStartTime with
     | some rst =>
       let newTimes := p.completionTimes.getD [] ++ [now - rst]
       { base with
         completionTimes := some newTimes
         averageTime :=
           some ((sumTimes newTimes : Rat) / (newTimes.length : Rat))
         fastestTime := some (listMin newTimes) }
     | none => base)
  else base

/-- Model of `submitAnswer(roomId, answer)`. -/
def submitAnswer (user : Option String) (roomDoc : Option Room)
    (answer : String) (now : Nat) (backendOk : Bool) : Except Err Room :=
  match user with
  | none => .error "User not authenticated"
  | some uid =>
    match roomDoc with
    | none => .error "Room not found"
    | some room =>
      if room.targetPhrase = "" then .error "No target phrase set"
      else
        let accuracy := calculateAccuracy room.targetPhrase answer
        match lookupP room.participants uid with
        | none => .error "participant record missing"
        | some p =>
          writeRoom backendOk
            { room with
              participants :=
                setParticipant room.participants uid
                  (submitUpdate room p accuracy answer now) }

/-- Model of `catch (error) { console.error(...); }` with no rethrow: the caller
always observes success; on failure the previously visible document
state stands. -/
def swallowErrors (fallback : Option Room) :
    Except Err (Option Room) → Except Err (Option Room)
  | .ok s => .ok s
  | .error _ => .ok fallback

/-- The `try` body of `updateTypingStatus(roomId, isTyping)`. -/
def updateTypingStatusBody (user : Option String) (roomDoc : Option Room)
    (isTyping : Bool) (backendOk : Bool) : Except Err (Option Room) :=
  match user with
  | none => .ok roomDoc
  | some uid =>
    match roomDoc with
    | none => .ok none
    | some room =>
      match lookupP room.participants uid with
      | none => .ok (some room)
      | some p =>
        if p.status = .submitted then .ok (some room)
        else
          let updated : ParticipantData :=
            { p with
              status := if isTyping then .typing else .waiting
              isTyping := isTyping }
          match writeRoom backendOk
              { room with participants :=
                  setParticipant room.participants uid updated } with
          | .ok r => .ok (some r)
          | .error e => .error e

/-- Model of `updateTypingStatus(roomId, isTyping)`: the body wrapped in the
non-rethrowing catch. -/
def updateTypingStatus (user : Option String) (roomDoc : Option Room)
    (isTyping : Bool) (backendOk : Bool) : Except Err (Option Room) :=
  swallowErrors roomDoc (updateTypingStatusBody user roomDoc isTyping backendOk)

/-- The `try` body of `leaveRoom(roomId)`. -/
def leaveRoomBody (user : Option String) (roomDoc : Option Room)
    (backendOk : Bool) : Except Err (Option Room) :=
  match user with
  | none => .ok roomDoc
  | some uid =>
    match roomDoc with
    | none => .ok none
    | some room =>
      if room.hostId = uid then
        if backendOk then .ok none else .error "deleteDoc failed"
      else
        match writeRoom backendOk
            { room with participants :=
                room.participants.filter (fun q => !(q.fst == uid)) } with
        | .ok r => .ok (some r)
        | .error e => .error e

/-- Model of `leaveRoom(roomId)`: the body wrapped in the
non-rethrowing catch. -/
def leaveRoom (user : Option String) (roomDoc : Option Room)
    (backendOk : Bool) : Except Err (Option Room) :=
  swallowErrors roomDoc (leaveRoomBody user roomDoc backendOk)

/-- Model of `toggleShowPhraseToParticipants(roomId, show)`
(host only). -/
def toggleShowPhraseToParticipants (user : Option String)
    (roomDoc : Option Room) (showPhrase : Bool) (backendOk : Bool) :
    Except Err Room :=
  match user with
  | none => .error "User not authenticated"
  | some uid =>
    match roomDoc with
    | none => .error "Room not found"
    | some room =>
      if room.hostId ≠ uid then .error "Only host can toggle phrase visibility"
      else
        writeRoom backendOk { room with showPhraseToParticipants := showPhrase }

/-! ## State machine operations (src/lib/phrase-management.ts) -/

/-- The participant object rebuilt by `setNextPhrase`: only
`nickname`, `status`, `isTyping`, `correctCount`, `totalAttempts` are
carried over; every other field of the old record is dropped. -/
def resetForNextPhrase (p : ParticipantData) : ParticipantData :=
  { nickname := p.nickname
    status := .waiting
    isTyping := false
    correctCount := p.correctCount
    totalAttempts := p.totalAttempts }

/-- Model of `setNextPhrase(roomId)` (host only); the global phrase list is the
`phraseList` argument. -/
def setNextPhrase (user : Option String) (roomDoc : Option Room)
    (phraseList : List String) (now : Nat) (backendOk : Bool) :
    Except Err Room :=
  match user with
  | none => .error "User not authenticated"
  | some uid =>
    match roomDoc with
    | none => .error "Room not found"
    | some room =>
      if room.hostId ≠ uid then .error "Only host can set next phrase"
      else if phraseList.length = 0 then .error "No phrases in global list"
      else
        let currentIndex := room.currentPhraseIndex.getD 0
        let nextIndex := (currentIndex + 1) % phraseList.length
        let nextPhrase := phraseList.getD nextIndex ""
        writeRoom backendOk
          { room with
            targetPhrase := nextPhrase
            currentPhraseIndex := some nextIndex
            participants :=
              room.participants.map (fun q => (q.fst, resetForNextPhrase q.snd))
            isCountingDown := true
            countdownStartedAt := some now }

/-- Model of `removeParticipant(roomId, participantId)` (host only). -/
def removeParticipant (user : Option String) (roomDoc : Option Room)
    (participantId : String) (backendOk : Bool) : Except Err Room :=
  match user with
  | none => .error "User not authenticated"
  | some uid =>
    match roomDoc with
    | none => .error "Room not found"
    | some room =>
      if room.hostId ≠ uid then .error "Only host can remove participants"
      else if participantId = uid then .error "Host cannot remove themselves"
      else
        writeRoom backendOk
          { room with participants :=
              room.participants.filter (fun q => !(q.fst == participantId)) }

/-! ## Reachability through the state machine -/

/-- Room states reachable through the operations named by the spec's
invariant section: creation, join, phrase assignment (direct and
advance), submission, typing update. -/
inductive Reachable : Room → Prop
  | created (user : Option String) (roomId hostNickname : String)
      (now : Nat) (r : Room) :
      createRoom true user roomId hostNickname now true = .ok r →
      Reachable r
  | joined (r : Room) (user : Option String) (nickname : String)
      (ok : Bool) (r' : Room) : Reachable r →
      joinRoom user (some r) nickname ok = .ok r' → Reachable r'
  | assigned (r : Room) (user : Option String) (phrase : String)
      (index : Option Nat) (audioUrl : Option String) (now : Nat)
      (ok : Bool) (r' : Room) : Reachable r →
      setTargetPhrase user (some r) phrase index audioUrl now ok = .ok r' →
      Reachable r'
  | advanced (r : Room) (user : Option String) (phraseList : List String)
      (now : Nat) (ok : Bool) (r' : Room) : Reachable r →
      setNextPhrase user (some r) phraseList now ok = .ok r' → Reachable r'
  | answered (r : Room) (user : Option String) (answer : String)
      (now : Nat) (ok : Bool) (r' : Room) : Reachable r →
      submitAnswer user (some r) answer now ok = .ok r' → Reachable r'
  | typed (r : Room) (user : Option String) (isTyping : Bool) (ok : Bool)
      (r' : Room) : Reachable r →
      updateTypingStatus user (some r) isTyping ok = .ok (some r') →
      Reachable r'

/-- The spec invariant `correctCount ≤ totalAttempts`, for every
participant of a room. -/
def CountInv (r : Room) : Prop :=
  ∀ q ∈ r.participants, q.snd.correctCount ≤ q.snd.totalAttempts

/-! ## Concrete fixtures for the state-machine claims -/

/-- A fully correct scored result, as stored in a history entry. -/
def demoAcc : AccuracyResult :=
  { correct := ["a"]
    incorrect := []
    missing := []
    extra := []
    isFullyCorrect := true
    accuracy := 100 }

/-- A past submission recorded in a participant's history. -/
def demoEntry : SubmissionEntry :=
  { phrase := "a"
    answer := "a"
    accuracy := demoAcc
    submittedAt := 50
    phraseIndex := some 0 }

/-- A participant with accumulated history and statistics. -/
def demoVet : ParticipantData :=
  { nickname := "vet"
    status := .submitted
    submission := some "a"
    accuracy := some demoAcc
    submittedAt := some 50
    isTyping := false
    correctCount := 2
    totalAttempts := 3
    averageTime := some 40
    fastestTime := some 30
    completionTimes := some [30, 50]
    submissionHistory := some [demoEntry] }

/-- An active room with host `h` and veteran participant `u`. -/
def demoRoom : Room :=
  { id := "R1"
    hostId := "h"
    targetPhrase := "a"
    createdAt := 0
    isActive := true
    participants := [("h", freshParticipant "host"), ("u", demoVet)]
    countdownStartedAt := some 10
    isCountingDown := false
    roundStartTime := some 20
    currentPhraseIndex := some 0 }

/-- Room `demoRoom` in the middle of a countdown. -/
def countdownRoom : Room :=
  { demoRoom with isCountingDown := true, countdownStartedAt := some 90 }

/-- A freshly created room: no phrase yet, no `currentPhraseIndex`. -/
def demoFresh : Room :=
  { id := "R2"
    hostId := "h"
    targetPhrase := ""
    createdAt := 0
    isActive := true
    participants := [("h", freshParticipant "host")] }

/-! ## Scorer lemmas: the word-count map -/

/-- The keys of a word-count map are pairwise distinct. -/
def keysNodup (m : List (String × Nat)) : Prop :=
  (m.map Prod.fst).Nodup

theorem getCount_nil (w : String) : getCount [] w = 0 := rfl

theorem getCount_cons (a : String × Nat) (m : List (String × Nat))
    (w : String) :
    getCount (a :: m) w = if a.fst = w then a.snd else getCount m w := by
  simp only [getCount, List.find?]
  by_cases h : a.fst = w
  · simp [h]
  · simp [h, beq_eq_false_iff_ne.mpr h]

theorem hasKey_nil (w : String) : hasKey [] w = false := rfl

theorem hasKey_cons (a : String × Nat) (m : List (String × Nat))
    (w : String) :
    hasKey (a :: m) w = ((a.fst == w) || hasKey m w) := by
  simp [hasKey]

theorem getCount_eq_zero_of_not_hasKey (m : List (String × Nat))
    (w : String) (h : hasKey m w = false) : getCount m w = 0 := by
  induction m with
  | nil => rfl
  | cons a m ih =>
    rw [hasKey_cons, Bool.or_eq_false_iff] at h
    rw [getCount_cons]
    have ha : ¬ a.fst = w := by
      intro hw
      simp [hw] at h
    simp [ha, ih h.2]

theorem getCount_append (m m' : List (String × Nat)) (w : String) :
    getCount (m ++ m') w
      = if hasKey m w = true then getCount m w else getCount m' w := by
  induction m with
  | nil => simp [hasKey_nil, getCount_nil]
  | cons a m ih =>
    rw [List.cons_append, getCount_cons, getCount_cons, hasKey_cons, ih]
    by_cases haw : a.fst = w
    · simp [haw]
    · simp [haw, beq_eq_false_iff_ne.mpr haw]

/-- Effect of the incrementing `map` inside `bump` on `getCount`. -/
theorem getCount_mapIncr (m : List (String × Nat)) (w w' : String) :
    getCount (m.map (fun p => if p.fst == w then (p.fst, p.snd + 1) else p)) w'
      = if w' = w ∧ hasKey m w' = true then getCount m w' + 1
        else getCount m w' := by
  induction m with
  | nil => simp [getCount_nil, hasKey_nil]
  | cons a m ih =>
    have hfst : (if (a.fst == w) = true then (a.fst, a.snd + 1) else a).fst
        = a.fst := by
      by_cases h : (a.fst == w) = true <;> simp [h]
    rw [List.map_cons, getCount_cons, getCount_cons, hasKey_cons, hfst]
    by_cases haw' : a.fst = w'
    · rw [if_pos haw', if_pos haw']
      by_cases hw : w' = w
      · have haww : (a.fst == w) = true := by
          rw [haw', hw]
          exact beq_self_eq_true w
        have hcond : w' = w ∧ ((a.fst == w') || hasKey m w') = true := by
          exact ⟨hw, by simp [haw']⟩
        rw [if_pos hcond]
        simp [haww]
      · have hcond : ¬ (w' = w ∧ ((a.fst == w') || hasKey m w') = true) :=
          fun hc => hw hc.1
        rw [if_neg hcond]
        have haww : (a.fst == w) = false :=
          beq_eq_false_iff_ne.mpr (fun hc => hw (haw' ▸ hc ▸ rfl))
        simp [haww]
    · rw [if_neg haw', if_neg haw', ih]
      have hbeq : (a.fst == w') = false := beq_eq_false_iff_ne.mpr haw'
      by_cases hw : w' = w
      · have haw : ¬ a.fst = w := fun hc => haw' (hc.trans hw.symm)
        simp [hw, hbeq, haw]
      · simp [hw]

theorem getCount_bump (m : List (String × Nat)) (w w' : String) :
    getCount (bump m w) w'
      = if w' = w then getCount m w' + 1 else getCount m w' := by
  unfold bump
  by_cases h : (m.any fun p => p.fst == w) = true
  · rw [if_pos h, getCount_mapIncr]
    have hk : hasKey m w = true := h
    by_cases hw : w' = w
    · subst hw
      simp [hk]
    · simp [hw]
  · rw [if_neg h]
    have hnk : hasKey m w = false := by
      unfold hasKey
      exact Bool.eq_false_iff.mpr h
    rw [getCount_append]
    by_cases hw : w' = w
    · subst hw
      rw [if_neg (by simp [hnk]), getCount_cons]
      simp [getCount_eq_zero_of_not_hasKey m w' hnk, getCount_nil]
    · by_cases hk : hasKey m w' = true
      · simp [hk, hw]
      · rw [if_neg (by simp_all), getCount_cons, if_neg
          (fun hc : w = w' => hw hc.symm), getCount_nil,
          getCount_eq_zero_of_not_hasKey m w' (by simp_all)]
        simp [hw]

theorem hasKey_bump (m : List (String × Nat)) (w w' : String) :
    hasKey (bump m w) w' = (hasKey m w' || (w' == w)) := by
  unfold bump
  by_cases h : (m.any fun p => p.fst == w) = true
  · rw [if_pos h]
    have hmap : hasKey
        (m.map fun p => if p.fst == w then (p.fst, p.snd + 1) else p) w'
        = hasKey m w' := by
      unfold hasKey
      rw [List.any_map]
      congr 1
      funext p
      by_cases hpw : (p.fst == w) = true <;> simp [hpw, Function.comp]
    rw [hmap]
    by_cases hw : w' = w
    · subst hw
      have hk : hasKey m w' = true := h
      simp [hk]
    · simp [beq_eq_false_iff_ne.mpr hw]
  · rw [if_neg h]
    unfold hasKey
    rw [List.any_append]
    simp only [List.any_cons, List.any_nil, Bool.or_false]
    by_cases hw : w' = w
    · subst hw
      simp
    · simp [beq_eq_false_iff_ne.mpr hw,
        beq_eq_false_iff_ne.mpr (fun hc : w = w' => hw hc.symm)]

theorem keysNodup_bump (m : List (String × Nat)) (w : String)
    (h : keysNodup m) : keysNodup (bump m w) := by
  unfold bump
  by_cases hk : m.any (fun p => p.fst == w) = true
  · rw [if_pos hk]
    unfold keysNodup at h ⊢
    have : (m.map (fun p => if p.fst == w then (p.fst, p.snd + 1) else p)).map
        Prod.fst = m.map Prod.fst := by
      rw [List.map_map]
      congr 1
      funext p
      by_cases hh : p.fst == w <;> simp [hh, Function.comp]
    rwa [this]
  · rw [if_neg hk]
    unfold keysNodup at h ⊢
    rw [List.map_append]
    simp only [List.map_cons, List.map_nil]
    rw [List.nodup_append]
    refine ⟨h, List.nodup_singleton w, ?_⟩
    intro x hx hmem
    simp only [List.mem_singleton] at hmem
    subst hmem
    apply hk
    rw [List.any_eq_true]
    obtain ⟨p, hp, hpw⟩ := List.mem_map.mp hx
    exact ⟨p, hp, by simp [hpw]⟩

theorem getCount_foldl_bump (ws : List String) (m : List (String × Nat))
    (w : String) :
    getCount (ws.foldl bump m) w = getCount m w + ws.count w := by
  induction ws generalizing m with
  | nil => simp [List.count_nil]
  | cons a ws ih =>
    rw [List.foldl_cons, ih, getCount_bump, List.count_cons]
    by_cases hw : w = a
    · simp only [if_pos hw, hw, beq_self_eq_true, if_pos]
      omega
    · simp only [if_neg hw,
        beq_eq_false_iff_ne.mpr (fun hc : a = w => hw hc.symm),
        Bool.false_eq_true, reduceIte, Nat.add_zero]

theorem getCount_countWords (ws : List String) (w : String) :
    getCount (countWords ws) w = ws.count w := by
  unfold countWords
  rw [getCount_foldl_bump, getCount_nil, Nat.zero_add]

theorem hasKey_foldl_bump (ws : List String) (m : List (String × Nat))
    (w : String) :
    hasKey (ws.foldl bump m) w = (hasKey m w || ws.contains w) := by
  induction ws generalizing m with
  | nil => simp
  | cons a ws ih =>
    rw [List.foldl_cons, ih, hasKey_bump, List.contains_cons, Bool.or_assoc]

theorem keysNodup_countWords (ws : List String) :
    keysNodup (countWords ws) := by
  unfold countWords
  have : ∀ m, keysNodup m → keysNodup (ws.foldl bump m) := by
    induction ws with
    | nil => exact fun m h => h
    | cons a ws ih =>
      intro m h
      exact ih (bump m a) (keysNodup_bump m a h)
  exact this [] (by simp [keysNodup])

/-- Counting one word in the multiset expansion of a word-count map. -/
theorem count_flatMap_replicate (g : String → Nat → Nat)
    (hg : ∀ x, g x 0 = 0) (m : List (String × Nat)) (hm : keysNodup m)
    (w : String) :
    (m.flatMap (fun p => List.replicate (g p.fst p.snd) p.fst)).count w
      = g w (getCount m w) := by
  induction m with
  | nil => simp [getCount_nil, hg]
  | cons a m ih =>
    unfold keysNodup at hm
    rw [List.map_cons, List.nodup_cons] at hm
    rw [List.flatMap_cons, List.count_append, getCount_cons]
    by_cases haw : a.fst = w
    · subst haw
      have hnk : hasKey m a.fst = false := by
        unfold hasKey
        rw [List.any_eq_false]
        intro p hp
        simp only [beq_iff_eq]
        intro hc
        exact hm.1 (List.mem_map.mpr ⟨p, hp, hc⟩)
      have h0 : getCount m a.fst = 0 :=
        getCount_eq_zero_of_not_hasKey m a.fst hnk
      have hz : (m.flatMap
          (fun p => List.replicate (g p.fst p.snd) p.fst)).count a.fst = 0 := by
        rw [ih hm.2, h0, hg]
      simp [hz, List.count_replicate]
    · rw [ih hm.2]
      simp [if_neg haw, List.count_replicate,
        beq_eq_false_iff_ne.mpr (fun hh : w = a.fst => haw hh.symm)]

/-! ## Scorer lemmas: multiset characterization of the result lists -/

theorem count_correct (t i w : String) :
    (calculateAccuracy t i).correct.count w
      = min ((tokenize t).count w) ((tokenize i).count w) := by
  have h := count_flatMap_replicate
    (fun x c => min c (getCount (countWords (tokenize i)) x))
    (fun x => Nat.zero_min _) (countWords (tokenize t))
    (keysNodup_countWords _) w
  exact h.trans (by
    show min (getCount (countWords (tokenize t)) w)
        (getCount (countWords (tokenize i)) w) = _
    rw [getCount_countWords, getCount_countWords])

theorem count_missing (t i w : String) :
    (calculateAccuracy t i).missing.count w
      = (tokenize t).count w - (tokenize i).count w := by
  have h := count_flatMap_replicate
    (fun x c => c - getCount (countWords (tokenize i)) x)
    (fun x => Nat.zero_sub _) (countWords (tokenize t))
    (keysNodup_countWords _) w
  exact h.trans (by
    show getCount (countWords (tokenize t)) w
        - getCount (countWords (tokenize i)) w = _
    rw [getCount_countWords, getCount_countWords])

theorem count_extra (t i w : String) :
    (calculateAccuracy t i).extra.count w
      = (tokenize i).count w - (tokenize t).count w := by
  have h := count_flatMap_replicate
    (fun x c => c - getCount (countWords (tokenize t)) x)
    (fun x => Nat.zero_sub _) (countWords (tokenize i))
    (keysNodup_countWords _) w
  exact h.trans (by
    show getCount (countWords (tokenize i)) w
        - getCount (countWords (tokenize t)) w = _
    rw [getCount_countWords, getCount_countWords])

/-- Lists `correct ++ missing` form a permutation of the reference tokens. -/
theorem correct_missing_perm (t i : String) :
    ((calculateAccuracy t i).correct ++ (calculateAccuracy t i).missing).Perm
      (tokenize t) := by
  rw [List.perm_iff_count]
  intro w
  rw [List.count_append, count_correct, count_missing]
  omega

/-- Lists `correct ++ extra` form a permutation of the submission tokens. -/
theorem correct_extra_perm (t i : String) :
    ((calculateAccuracy t i).correct ++ (calculateAccuracy t i).extra).Perm
      (tokenize i) := by
  rw [List.perm_iff_count]
  intro w
  rw [List.count_append, count_correct, count_extra]
  omega

/-! ## Claim theorems: the scorer -/

/-- C5: for every pair of input strings, `len(correct) + len(missing)`
equals the number of normalized reference tokens, and `len(correct)`
plus the number of extra occurrences of words that appear only in the
submission is at most the number of normalized submission tokens. -/
theorem C5_word_count_conservation (t i : String) :
    (calculateAccuracy t i).correct.length
        + (calculateAccuracy t i).missing.length = (tokenize t).length
    ∧ (calculateAccuracy t i).correct.length
        + ((calculateAccuracy t i).extra.filter
            (fun w => !((tokenize t).contains w))).length
      ≤ (tokenize i).length := by
  constructor
  · have h := (correct_missing_perm t i).length_eq
    rwa [List.length_append] at h
  · have h := (correct_extra_perm t i).length_eq
    rw [List.length_append] at h
    have hf := List.length_filter_le
      (fun w => !((tokenize t).contains w)) (calculateAccuracy t i).extra
    omega

/-- C9: for every pair of input strings, `len(correct) + len(extra)`
equals the number of normalized submission tokens exactly: every
submission token is counted in exactly one of `correct` or `extra`. -/
theorem C9_submission_token_partition (t i : String) :
    (calculateAccuracy t i).correct.length
        + (calculateAccuracy t i).extra.length = (tokenize i).length := by
  have h := (correct_extra_perm t i).length_eq
  rwa [List.length_append] at h

/-- C4: scoring reference "The quick brown fox" against submission
"the quick red fox jumps" yields `correct = [the, quick, fox]`,
`missing = [brown]`, `incorrect` and `extra` both containing `red` and
`jumps`, `accuracy = 75.00` and `isFullyCorrect = false`: a submission
word absent from the reference is classified as both incorrect and
extra. -/
theorem C4_concrete_scoring :
    (calculateAccuracy "The quick brown fox" "the quick red fox jumps").correct
        = ["the", "quick", "fox"]
    ∧ (calculateAccuracy "The quick brown fox" "the quick red fox jumps").missing
        = ["brown"]
    ∧ "red" ∈ (calculateAccuracy "The quick brown fox"
        "the quick red fox jumps").incorrect
    ∧ "jumps" ∈ (calculateAccuracy "The quick brown fox"
        "the quick red fox jumps").incorrect
    ∧ "red" ∈ (calculateAccuracy "The quick brown fox"
        "the quick red fox jumps").extra
    ∧ "jumps" ∈ (calculateAccuracy "The quick brown fox"
        "the quick red fox jumps").extra
    ∧ (calculateAccuracy "The quick brown fox"
        "the quick red fox jumps").accuracy = 75
    ∧ (calculateAccuracy "The quick brown fox"
        "the quick red fox jumps").isFullyCorrect = false := by
  refine ⟨by decide, by decide, by decide, by decide, by decide, by decide,
    ?_, by decide⟩
  have hproj : (calculateAccuracy "The quick brown fox"
      "the quick red fox jumps").accuracy
      = round2 (accuracyPercent
          (calculateAccuracy "The quick brown fox"
            "the quick red fox jumps").correct.length
          (tokenize "The quick brown fox").length) := rfl
  have h1 : (calculateAccuracy "The quick brown fox"
      "the quick red fox jumps").correct.length = 3 := by decide
  have h2 : (tokenize "The quick brown fox").length = 4 := by decide
  rw [hproj, h1, h2]
  norm_num [round2, accuracyPercent]

/-! ## Claim theorems: phrase transitions (C1, C2) -/

/-- C1: the claim says both phrase-assignment paths preserve
`correctCount`, `totalAttempts`, `completionTimes` and
`submissionHistory`.  The direct path (`setTargetPhrase`) does (first
conjunct), but `setNextPhrase` rebuilds each participant record from
only five fields, wiping `completionTimes` and `submissionHistory`
(second conjunct) even though the participant had both (third
conjunct).  This contradicts the claim and the sibling
`setTargetPhrase` implementation's explicit "preserve
submissionHistory" handling: evidence for a code bug in
`setNextPhrase`. -/
theorem C1_setNextPhrase_clears_history :
    (setTargetPhrase (some "h") (some demoRoom) "b" (some 1) none 99
        true).toOption.bind (fun r => lookupP r.participants "u")
      = some { demoVet with
                status := .waiting
                isTyping := false
                submission := none
                accuracy := none
                submittedAt := none }
    ∧ (setNextPhrase (some "h") (some demoRoom) ["p0", "p1"] 99
        true).toOption.bind (fun r => lookupP r.participants "u")
      = some { nickname := "vet"
               status := .waiting
               isTyping := false
               correctCount := 2
               totalAttempts := 3 }
    ∧ demoVet.submissionHistory = some [demoEntry]
    ∧ demoVet.completionTimes = some [30, 50] := by
  refine ⟨by decide, by decide, rfl, rfl⟩

/-- C2: the claim says a Submit issued while `isCountingDown` is true
is rejected or ignored, and no transition into `submitted` or `typing`
is possible.  `submitAnswer` and `updateTypingStatus` perform no
`isCountingDown` check: on a concrete counting-down room the
submission succeeds and sets `status = submitted`, and a typing update
sets `status = typing`.  Evidence for a code bug (the gate exists only
in client-side UI rendering). -/
theorem C2_submit_during_countdown_accepted :
    countdownRoom.isCountingDown = true
    ∧ ((submitAnswer (some "u") (some countdownRoom) "a" 95
          true).toOption.bind
        (fun r => (lookupP r.participants "u").map (fun q => q.status)))
      = some .submitted
    ∧ ((updateTypingStatus (some "h") (some countdownRoom) true
          true).toOption.join.bind
        (fun r => (lookupP r.participants "h").map (fun q => q.status)))
      = some .typing := by
  refine ⟨rfl, by decide, by decide⟩

/-! ## Participant-map lemmas -/

theorem lookupP_setParticipant_self (ps : List (String × ParticipantData))
    (uid : String) (p : ParticipantData) :
    lookupP (setParticipant ps uid p) uid = some p := by
  unfold setParticipant lookupP
  by_cases h : (ps.any fun q => q.fst == uid) = true
  · rw [if_pos h]
    induction ps with
    | nil => simp at h
    | cons a ps ih =>
      simp only [List.map_cons, List.find?]
      by_cases ha : (a.fst == uid) = true
      · simp [ha]
      · rw [if_neg (by simp [ha])]
        simp only [ha]
        exact ih (by
          rw [List.any_cons] at h
          simpa [ha] using h)
  · rw [if_neg h]
    rw [List.find?_append]
    have hnone : ps.find? (fun q => q.fst == uid) = none := by
      rw [List.find?_eq_none]
      intro q hq
      have := Bool.eq_false_iff.mpr h
      rw [List.any_eq_false] at this
      simp [this q hq]
    rw [hnone]
    simp [List.find?]

theorem mem_setParticipant (ps : List (String × ParticipantData))
    (uid : String) (p : ParticipantData) (q : String × ParticipantData)
    (hq : q ∈ setParticipant ps uid p) : q ∈ ps ∨ q = (uid, p) := by
  unfold setParticipant at hq
  by_cases h : (ps.any fun r => r.fst == uid) = true
  · rw [if_pos h] at hq
    obtain ⟨a, ha, rfl⟩ := List.mem_map.mp hq
    by_cases hau : (a.fst == uid) = true
    · right
      simp [hau]
    · left
      simpa [hau] using ha
  · rw [if_neg h] at hq
    rcases List.mem_append.mp hq with h1 | h2
    · exact Or.inl h1
    · exact Or.inr (List.mem_singleton.mp h2)

theorem lookupP_mem (ps : List (String × ParticipantData)) (uid : String)
    (p : ParticipantData) (h : lookupP ps uid = some p) : (uid, p) ∈ ps := by
  unfold lookupP at h
  obtain ⟨q, hq, hqp⟩ := Option.map_eq_some'.mp h
  have hmem := List.mem_of_find?_eq_some hq
  have hpred := List.find?_some hq
  have hfst : q.fst = uid := by simpa using hpred
  have : q = (uid, p) := by
    cases q
    simp_all
  rwa [this] at hmem

/-! ## Claim theorems: rejoining (C8) -/

/-- C8 counterexample: `u` is already a participant of `demoRoom` with
`correctCount = 2`, `totalAttempts = 3`, nonempty `completionTimes`
and `submissionHistory`; joining again under the identity `u` leaves a
record with zero counters and no history — the claim's "leaves
cumulative fields unchanged" is false on the code. -/
theorem C8_rejoin_counterexample :
    (lookupP demoRoom.participants "u").map
        (fun q => (q.correctCount, q.totalAttempts, q.completionTimes,
          q.submissionHistory))
      = some (2, 3, some [30, 50], some [demoEntry])
    ∧ (joinRoom (some "u") (some demoRoom) "vet" true).toOption.bind
        (fun r => (lookupP r.participants "u").map
          (fun q => (q.correctCount, q.totalAttempts, q.completionTimes,
            q.submissionHistory)))
      = some (0, 0, none, none) := by
  refine ⟨by decide, by decide⟩

/-- C8 amended: joining an active room under an identity that is
already a participant does not preserve the existing record — it
overwrites the slot with a fresh `waiting` record with zero counters
and no history. -/
theorem C8_rejoin_overwrites (uid nickname : String) (room : Room)
    (p : ParticipantData) (hact : room.isActive = true)
    (hmem : lookupP room.participants uid = some p) :
    ∃ r', joinRoom (some uid) (some room) nickname true = .ok r'
      ∧ lookupP r'.participants uid = some (freshParticipant nickname) := by
  refine ⟨{ room with
    participants :=
      setParticipant room.participants uid (freshParticipant nickname) },
    ?_, ?_⟩
  · simp only [joinRoom, writeRoom, hact]
    rfl
  · exact lookupP_setParticipant_self room.participants uid
      (freshParticipant nickname)

/-- C8 witness: the amended theorem applied to `demoRoom` and the
existing participant `u`. -/
theorem C8_witness :
    ∃ r', joinRoom (some "u") (some demoRoom) "vet2" true = .ok r'
      ∧ lookupP r'.participants "u" = some (freshParticipant "vet2") :=
  C8_rejoin_overwrites "u" "vet2" demoRoom demoVet rfl (by decide)

/-! ## Claim theorems: advancing a fresh room (C10) -/

/-- C10: when `currentPhraseIndex` is absent, `setNextPhrase` treats
the current index as `0` (`|| 0`) and serves index `(0 + 1) mod len`;
for a list of length at least 2 the first advance on a fresh room
serves the phrase at index 1, skipping index 0. -/
theorem C10_first_advance_skips_first (user : String) (room : Room)
    (phraseList : List String) (now : Nat) (hhost : room.hostId = user)
    (hidx : room.currentPhraseIndex = none) (hlen : 2 ≤ phraseList.length) :
    setNextPhrase (some user) (some room) phraseList now true
      = .ok { room with
              targetPhrase := phraseList.getD 1 ""
              currentPhraseIndex := some 1
              participants := room.participants.map
                (fun q => (q.fst, resetForNextPhrase q.snd))
              isCountingDown := true
              countdownStartedAt := some now } := by
  simp only [setNextPhrase]
  rw [if_neg (not_not_intro hhost), if_neg (by omega : ¬ phraseList.length = 0),
    hidx]
  simp only [Option.getD_none, Nat.zero_add]
  rw [Nat.mod_eq_of_lt (by omega : 1 < phraseList.length)]
  rfl

/-- C10 witness: a fresh room (no `currentPhraseIndex`) advanced over
the two-element list `["p0", "p1"]` serves `"p1"` at index 1. -/
theorem C10_witness :
    demoFresh.currentPhraseIndex = none
    ∧ setNextPhrase (some "h") (some demoFresh) ["p0", "p1"] 5 true
      = .ok { demoFresh with
              targetPhrase := ["p0", "p1"].getD 1 ""
              currentPhraseIndex := some 1
              participants := demoFresh.participants.map
                (fun q => (q.fst, resetForNextPhrase q.snd))
              isCountingDown := true
              countdownStartedAt := some 5 } :=
  ⟨rfl, C10_first_advance_skips_first "h" demoFresh ["p0", "p1"] 5 rfl rfl
    (by decide)⟩

/-! ## Claim theorems: error propagation (C6) -/

/-- C6 counterexample: `updateTypingStatus` is invoked on behalf of a
waiting caller, yet when the backend write fails (the `try` body
errors, first conjunct) the caller still observes success (second
conjunct): the error is silently swallowed, contradicting the claim.
`leaveRoom` behaves the same way (third and fourth conjuncts). -/
theorem C6_swallowed_error_counterexample :
    updateTypingStatusBody (some "h") (some demoRoom) true false
      = .error "backend write failed"
    ∧ updateTypingStatus (some "h") (some demoRoom) true false
      = .ok (some demoRoom)
    ∧ leaveRoomBody (some "u") (some demoRoom) false
      = .error "backend write failed"
    ∧ leaveRoom (some "u") (some demoRoom) false = .ok (some demoRoom) :=
  ⟨rfl, rfl, rfl, rfl⟩

/-- C6 amended: the operations wrapped in rethrowing handlers
(`createRoom`, `joinRoom`, `setTargetPhrase`, `setNextPhrase`,
`submitAnswer`, `removeParticipant`, `toggleShowPhraseToParticipants`)
surface a failed backend write to the caller as a failed result, but
`updateTypingStatus` and `leaveRoom` catch every inner error and
always complete successfully (only logging), so their callers never
observe a failure. -/
theorem C6_error_propagation :
    (∀ user roomDoc isTyping backendOk, ∃ d,
        updateTypingStatus user roomDoc isTyping backendOk = .ok d)
    ∧ (∀ user roomDoc backendOk, ∃ d,
        leaveRoom user roomDoc backendOk = .ok d)
    ∧ (∀ uid roomId nickname now,
        createRoom true (some uid) roomId nickname now false
          = .error "backend write failed")
    ∧ (∀ uid nickname (room : Room), room.isActive = true →
        joinRoom (some uid) (some room) nickname false
          = .error "backend write failed")
    ∧ (∀ uid (room : Room) phrase index audioUrl now, room.hostId = uid →
        setTargetPhrase (some uid) (some room) phrase index audioUrl now false
          = .error "backend write failed")
    ∧ (∀ uid (room : Room) phraseList now, room.hostId = uid →
        phraseList ≠ [] →
        setNextPhrase (some uid) (some room) phraseList now false
          = .error "backend write failed")
    ∧ (∀ uid (room : Room) answer now p, room.targetPhrase ≠ "" →
        lookupP room.participants uid = some p →
        submitAnswer (some uid) (some room) answer now false
          = .error "backend write failed")
    ∧ (∀ uid (room : Room) pid, room.hostId = uid → pid ≠ uid →
        removeParticipant (some uid) (some room) pid false
          = .error "backend write failed")
    ∧ (∀ uid (room : Room) showPhrase, room.hostId = uid →
        toggleShowPhraseToParticipants (some uid) (some room) showPhrase false
          = .error "backend write failed") := by
  refine ⟨?_, ?_, ?_, ?_, ?_, ?_, ?_, ?_, ?_⟩
  · intro user roomDoc isTyping backendOk
    unfold updateTypingStatus swallowErrors
    cases updateTypingStatusBody user roomDoc isTyping backendOk with
    | ok s => exact ⟨s, rfl⟩
    | error e => exact ⟨roomDoc, rfl⟩
  · intro user roomDoc backendOk
    unfold leaveRoom swallowErrors
    cases leaveRoomBody user roomDoc backendOk with
    | ok s => exact ⟨s, rfl⟩
    | error e => exact ⟨roomDoc, rfl⟩
  · intro uid roomId nickname now
    rfl
  · intro uid nickname room hact
    simp only [joinRoom, writeRoom, hact]
    rfl
  · intro uid room phrase index audioUrl now hhost
    simp only [setTargetPhrase, writeRoom]
    rw [if_neg (not_not_intro hhost)]
    rfl
  · intro uid room phraseList now hhost hne
    simp only [setNextPhrase, writeRoom]
    rw [if_neg (not_not_intro hhost),
      if_neg (by simpa [List.length_eq_zero] using hne)]
    rfl
  · intro uid room answer now p hphrase hp
    simp only [submitAnswer, writeRoom, hp]
    rw [if_neg hphrase]
    rfl
  · intro uid room pid hhost hpid
    simp only [removeParticipant, writeRoom]
    rw [if_neg (not_not_intro hhost), if_neg hpid]
    rfl
  · intro uid room showPhrase hhost
    simp only [toggleShowPhraseToParticipants, writeRoom]
    rw [if_neg (not_not_intro hhost)]
    rfl

/-- C6 witness: the amended theorem at concrete inputs — a swallowed
typing-status failure, a surfaced join failure on the active
`demoRoom`, and a surfaced submit failure for participant `u`. -/
theorem C6_witness :
    (∃ d, updateTypingStatus (some "h") (some demoRoom) true false = .ok d)
    ∧ joinRoom (some "x") (some demoRoom) "nick" false
      = .error "backend write failed"
    ∧ submitAnswer (some "u") (some demoRoom) "a" 7 false
      = .error "backend write failed" :=
  ⟨C6_error_propagation.1 (some "h") (some demoRoom) true false,
   C6_error_propagation.2.2.2.1 "x" "nick" demoRoom rfl,
   C6_error_propagation.2.2.2.2.2.2.1 "u" demoRoom "a" 7 demoVet
     (by decide) (by decide)⟩

/-! ## Minimum and sum of completion-time lists -/

theorem foldl_min_le_init (xs : List Nat) :
    ∀ a, xs.foldl Nat.min a ≤ a := by
  induction xs with
  | nil => exact fun a => Nat.le_refl a
  | cons x xs ih =>
    intro a
    exact Nat.le_trans (ih (Nat.min a x)) (Nat.min_le_left a x)

theorem foldl_min_le_mem (xs : List Nat) :
    ∀ a, ∀ y ∈ xs, xs.foldl Nat.min a ≤ y := by
  induction xs with
  | nil =>
    intro a y hy
    cases hy
  | cons x xs ih =>
    intro a y hy
    rcases List.mem_cons.mp hy with rfl | hmem
    · exact Nat.le_trans (foldl_min_le_init xs (Nat.min a y))
        (Nat.min_le_right a y)
    · exact ih (Nat.min a x) y hmem

theorem foldl_min_mem (xs : List Nat) :
    ∀ a, xs.foldl Nat.min a = a ∨ xs.foldl Nat.min a ∈ xs := by
  induction xs with
  | nil => exact fun a => Or.inl rfl
  | cons x xs ih =>
    intro a
    rw [List.foldl_cons]
    rcases ih (Nat.min a x) with h | h
    · rw [h]
      by_cases hax : a ≤ x
      · left
        simp [Nat.min, hax]
      · right
        have hx : a.min x = x := by
          simp only [Nat.min]
          omega
        rw [hx]
        exact List.mem_cons_self x xs
    · exact Or.inr (List.mem_cons_of_mem x h)

theorem listMin_le (l : List Nat) : ∀ y ∈ l, listMin l ≤ y := by
  cases l with
  | nil =>
    intro y hy
    cases hy
  | cons x xs =>
    intro y hy
    rcases List.mem_cons.mp hy with rfl | hmem
    · exact foldl_min_le_init xs y
    · exact foldl_min_le_mem xs x y hmem

theorem listMin_mem (l : List Nat) (h : l ≠ []) : listMin l ∈ l := by
  cases l with
  | nil => exact absurd rfl h
  | cons x xs =>
    rcases foldl_min_mem xs x with h1 | h1
    · rw [listMin, h1]
      exact List.mem_cons_self x xs
    · exact List.mem_cons_of_mem x h1

/-! ## Field characterization of `submitUpdate` -/

theorem submitUpdate_base_fields (room : Room) (p : ParticipantData)
    (acc : AccuracyResult) (answer : String) (now : Nat) :
    (submitUpdate room p acc answer now).status = .submitted
    ∧ (submitUpdate room p acc answer now).submission = some answer
    ∧ (submitUpdate room p acc answer now).accuracy = some acc
    ∧ (submitUpdate room p acc answer now).submittedAt = some now
    ∧ (submitUpdate room p acc answer now).totalAttempts = p.totalAttempts + 1
    ∧ (submitUpdate room p acc answer now).correctCount
      = (if acc.isFullyCorrect then p.correctCount + 1 else p.correctCount)
    ∧ (submitUpdate room p acc answer now).submissionHistory
      = some (p.submissionHistory.getD []
          ++ [{ phrase := room.targetPhrase
                answer := answer
                accuracy := acc
                submittedAt := now
                phraseIndex := room.currentPhraseIndex }]) := by
  unfold submitUpdate
  by_cases hfc : acc.isFullyCorrect = true
  · rw [if_pos hfc, if_pos hfc]
    cases room.roundStartTime <;>
      exact ⟨rfl, rfl, rfl, rfl, rfl, rfl, rfl⟩
  · rw [if_neg hfc, if_neg hfc]
    exact ⟨rfl, rfl, rfl, rfl, rfl, rfl, rfl⟩

theorem submitUpdate_times_recorded (room : Room) (p : ParticipantData)
    (acc : AccuracyResult) (answer : String) (now rst : Nat)
    (hfc : acc.isFullyCorrect = true)
    (hrst : room.roundStartTime = some rst) :
    (submitUpdate room p acc answer now).completionTimes
      = some (p.completionTimes.getD [] ++ [now - rst])
    ∧ (submitUpdate room p acc answer now).averageTime
      = some ((sumTimes (p.completionTimes.getD [] ++ [now - rst]) : Rat)
          / (((p.completionTimes.getD [] ++ [now - rst]).length : Nat) : Rat))
    ∧ (submitUpdate room p acc answer now).fastestTime
      = some (listMin (p.completionTimes.getD [] ++ [now - rst])) := by
  unfold submitUpdate
  rw [if_pos hfc, hrst]
  exact ⟨rfl, rfl, rfl⟩

theorem submitUpdate_times_kept (room : Room) (p : ParticipantData)
    (acc : AccuracyResult) (answer : String) (now : Nat)
    (h : acc.isFullyCorrect = false ∨ room.roundStartTime = none) :
    (submitUpdate room p acc answer now).completionTimes = p.completionTimes
    ∧ (submitUpdate room p acc answer now).averageTime = p.averageTime
    ∧ (submitUpdate room p acc answer now).fastestTime = p.fastestTime := by
  unfold submitUpdate
  by_cases hfc : acc.isFullyCorrect = true
  · rcases h with h | h
    · rw [hfc] at h
      cases h
    · rw [if_pos hfc, h]
      exact ⟨rfl, rfl, rfl⟩
  · rw [if_neg hfc]
    exact ⟨rfl, rfl, rfl⟩

/-- The successful-path equation for `submitAnswer`. -/
theorem submitAnswer_ok (uid : String) (room : Room) (p : ParticipantData)
    (answer : String) (now : Nat) (hphrase : ¬ room.targetPhrase = "")
    (hp : lookupP room.participants uid = some p) :
    submitAnswer (some uid) (some room) answer now true
      = .ok { room with
              participants :=
                setParticipant room.participants uid
                  (submitUpdate room p
                    (calculateAccuracy room.targetPhrase answer) answer now) } := by
  simp only [submitAnswer, writeRoom, hp]
  rw [if_neg hphrase]
  rfl

/-! ## Claim theorems: submission semantics (C3) -/

/-- C3: for every room with a nonempty `targetPhrase` and every
participant of it, `submitAnswer` scores the answer against
`targetPhrase` and writes, for that participant: `status = submitted`,
the stored `submission`/`accuracy`/`submittedAt`, `totalAttempts`
incremented by one, `correctCount` incremented iff the result is fully
correct, exactly one appended `submissionHistory` entry, and — exactly
when the result is fully correct and `roundStartTime` is set —
`completionTimes` extended by `now - roundStartTime`, `averageTime`
equal to the arithmetic mean of `completionTimes` and `fastestTime` to
its minimum; otherwise the three time fields are unchanged.  The
statement quantifies over arbitrary prior participant state, so it
covers every resubmission against the same open phrase. -/
theorem C3_submitAnswer_spec (uid : String) (room : Room)
    (p : ParticipantData) (answer : String) (now : Nat)
    (hphrase : room.targetPhrase ≠ "")
    (hp : lookupP room.participants uid = some p) :
    ∃ r' p', submitAnswer (some uid) (some room) answer now true = .ok r'
      ∧ lookupP r'.participants uid = some p'
      ∧ p'.status = .submitted
      ∧ p'.submission = some answer
      ∧ p'.accuracy = some (calculateAccuracy room.targetPhrase answer)
      ∧ p'.submittedAt = some now
      ∧ p'.totalAttempts = p.totalAttempts + 1
      ∧ p'.correctCount
        = (if (calculateAccuracy room.targetPhrase answer).isFullyCorrect
           then p.correctCount + 1 else p.correctCount)
      ∧ p'.submissionHistory
        = some (p.submissionHistory.getD []
            ++ [{ phrase := room.targetPhrase
                  answer := answer
                  accuracy := calculateAccuracy room.targetPhrase answer
                  submittedAt := now
                  phraseIndex := room.currentPhraseIndex }])
      ∧ (∀ rst, room.roundStartTime = some rst →
          (calculateAccuracy room.targetPhrase answer).isFullyCorrect = true →
          p'.completionTimes = some (p.completionTimes.getD [] ++ [now - rst])
          ∧ (∃ m, p'.fastestTime = some m
              ∧ m ∈ p.completionTimes.getD [] ++ [now - rst]
              ∧ ∀ x ∈ p.completionTimes.getD [] ++ [now - rst], m ≤ x)
          ∧ (∃ q, p'.averageTime = some q
              ∧ q * (((p.completionTimes.getD [] ++ [now - rst]).length : Nat)
                  : Rat)
                = ((sumTimes (p.completionTimes.getD [] ++ [now - rst]) : Nat)
                  : Rat)))
      ∧ (((calculateAccuracy room.targetPhrase answer).isFullyCorrect = false
            ∨ room.roundStartTime = none) →
          p'.completionTimes = p.completionTimes
          ∧ p'.averageTime = p.averageTime
          ∧ p'.fastestTime = p.fastestTime) := by
  refine ⟨_, submitUpdate room p (calculateAccuracy room.targetPhrase answer)
    answer now, submitAnswer_ok uid room p answer now hphrase hp,
    lookupP_setParticipant_self room.participants uid _, ?_⟩
  obtain ⟨h1, h2, h3, h4, h5, h6, h7⟩ := submitUpdate_base_fields room p
    (calculateAccuracy room.targetPhrase answer) answer now
  refine ⟨h1, h2, h3, h4, h5, h6, h7, ?_, ?_⟩
  · intro rst hrst hfc
    obtain ⟨ht1, ht2, ht3⟩ := submitUpdate_times_recorded room p
      (calculateAccuracy room.targetPhrase answer) answer now rst hfc hrst
    refine ⟨ht1, ⟨_, ht3, ?_, ?_⟩, ⟨_, ht2, ?_⟩⟩
    · exact listMin_mem _ (by simp)
    · exact listMin_le _
    · rw [div_mul_cancel₀]
      rw [Nat.cast_ne_zero]
      simp
  · intro h
    exact submitUpdate_times_kept room p
      (calculateAccuracy room.targetPhrase answer) answer now h

/-- C3 witness: the theorem applied to `demoRoom` and its participant
`u` submitting the correct answer `"a"` at time 95. -/
theorem C3_witness :
    ∃ r' p',
      submitAnswer (some "u") (some demoRoom) "a" 95 true = .ok r'
      ∧ lookupP r'.participants "u" = some p'
      ∧ p'.status = .submitted
      ∧ p'.submission = some "a"
      ∧ p'.accuracy = some (calculateAccuracy demoRoom.targetPhrase "a")
      ∧ p'.submittedAt = some 95
      ∧ p'.totalAttempts = demoVet.totalAttempts + 1
      ∧ p'.correctCount
        = (if (calculateAccuracy demoRoom.targetPhrase "a").isFullyCorrect
           then demoVet.correctCount + 1 else demoVet.correctCount)
      ∧ p'.submissionHistory
        = some (demoVet.submissionHistory.getD []
            ++ [{ phrase := demoRoom.targetPhrase
                  answer := "a"
                  accuracy := calculateAccuracy demoRoom.targetPhrase "a"
                  submittedAt := 95
                  phraseIndex := demoRoom.currentPhraseIndex }])
      ∧ (∀ rst, demoRoom.roundStartTime = some rst →
          (calculateAccuracy demoRoom.targetPhrase "a").isFullyCorrect = true →
          p'.completionTimes
            = some (demoVet.completionTimes.getD [] ++ [95 - rst])
          ∧ (∃ m, p'.fastestTime = some m
              ∧ m ∈ demoVet.completionTimes.getD [] ++ [95 - rst]
              ∧ ∀ x ∈ demoVet.completionTimes.getD [] ++ [95 - rst], m ≤ x)
          ∧ (∃ q, p'.averageTime = some q
              ∧ q * (((demoVet.completionTimes.getD []
                  ++ [95 - rst]).length : Nat) : Rat)
                = ((sumTimes (demoVet.completionTimes.getD []
                  ++ [95 - rst]) : Nat) : Rat)))
      ∧ (((calculateAccuracy demoRoom.targetPhrase "a").isFullyCorrect = false
            ∨ demoRoom.roundStartTime = none) →
          p'.completionTimes = demoVet.completionTimes
          ∧ p'.averageTime = demoVet.averageTime
          ∧ p'.fastestTime = demoVet.fastestTime) :=
  C3_submitAnswer_spec "u" demoRoom demoVet "a" 95 (by decide) (by decide)

/-! ## Claim theorems: the counter invariant (C7) -/

/-- C7: every room reachable through the state machine's operations
(creation, join, phrase assignment — direct or advance — submission,
typing update) satisfies `correctCount ≤ totalAttempts` for every
participant. -/
theorem C7_correct_le_attempts (r : Room) (h : Reachable r) : CountInv r := by
  induction h with
  | created user roomId hostNickname now r h =>
    cases user with
    | none => simp [createRoom] at h
    | some uid =>
      simp only [createRoom, writeRoom] at h
      simp at h
      subst h
      intro q hq
      rcases List.mem_singleton.mp hq with rfl
      exact Nat.le_refl 0
  | joined r user nickname ok r' hreach h ih =>
    cases user with
    | none => simp [joinRoom] at h
    | some uid =>
      simp only [joinRoom, writeRoom] at h
      split at h
      · simp at h
      · split at h
        · rw [Except.ok.injEq] at h
          subst h
          intro q hq
          rcases mem_setParticipant _ _ _ _ hq with hmem | rfl
          · exact ih q hmem
          · exact Nat.le_refl 0
        · simp at h
  | assigned r user phrase index audioUrl now ok r' hreach h ih =>
    cases user with
    | none => simp [setTargetPhrase] at h
    | some uid =>
      simp only [setTargetPhrase, writeRoom] at h
      split at h
      · simp at h
      · split at h
        · rw [Except.ok.injEq] at h
          subst h
          intro q hq
          obtain ⟨a, ha, rfl⟩ := List.mem_map.mp hq
          exact ih a ha
        · simp at h
  | advanced r user phraseList now ok r' hreach h ih =>
    cases user with
    | none => simp [setNextPhrase] at h
    | some uid =>
      simp only [setNextPhrase, writeRoom] at h
      split at h
      · simp at h
      · split at h
        · simp at h
        · split at h
          · rw [Except.ok.injEq] at h
            subst h
            intro q hq
            obtain ⟨a, ha, rfl⟩ := List.mem_map.mp hq
            exact ih a ha
          · simp at h
  | answered r user answer now ok r' hreach h ih =>
    cases user with
    | none => simp [submitAnswer] at h
    | some uid =>
      simp only [submitAnswer, writeRoom] at h
      split at h
      · simp at h
      · split at h
        · simp at h
        · next p hp =>
          split at h
          · rw [Except.ok.injEq] at h
            subst h
            intro q hq
            rcases mem_setParticipant _ _ _ _ hq with hmem | rfl
            · exact ih q hmem
            · have hb := submitUpdate_base_fields r p
                (calculateAccuracy r.targetPhrase answer) answer now
              have hta := hb.2.2.2.2.1
              have hcc := hb.2.2.2.2.2.1
              have hold := ih (uid, p) (lookupP_mem r.participants uid p hp)
              simp only at hold
              rw [hta, hcc]
              split <;> omega
          · simp at h
  | typed r user isTyping ok r' hreach h ih =>
    cases user with
    | none =>
      simp only [updateTypingStatus, updateTypingStatusBody,
        swallowErrors] at h
      simp at h
      subst h
      exact ih
    | some uid =>
      simp only [updateTypingStatus, updateTypingStatusBody, writeRoom] at h
      unfold swallowErrors at h
      split at h
      · next s heq =>
        rw [Except.ok.injEq] at h
        subst h
        split at heq
        · rw [Except.ok.injEq, Option.some.injEq] at heq
          subst heq
          exact ih
        · next p hp =>
          split at heq
          · rw [Except.ok.injEq, Option.some.injEq] at heq
            subst heq
            exact ih
          · split at heq
            · next rr heq2 =>
              rw [Except.ok.injEq, Option.some.injEq] at heq
              subst heq
              split at heq2
              · rw [Except.ok.injEq] at heq2
                subst heq2
                intro q hq
                rcases mem_setParticipant _ _ _ _ hq with hmem | rfl
                · exact ih q hmem
                · have hold := ih (uid, p)
                    (lookupP_mem r.participants uid p hp)
                  simpa using hold
              · simp at heq2
            · next e heq2 =>
              simp at heq
      · next e heq =>
        rw [Except.ok.injEq, Option.some.injEq] at h
        subst h
        exact ih

/-- C7 witness: the invariant holds at a freshly created room. -/
theorem C7_witness :
    CountInv { id := "R3"
               hostId := "w"
               targetPhrase := ""
               createdAt := 4
               isActive := true
               participants := [("w", freshParticipant "host")] } :=
  C7_correct_le_attempts _
    (Reachable.created (some "w") "R3" "host" 4 _ rfl)

end WFD
